import Mathlib

/-!
Verification of the political-implication-scanner pipeline.

The definitions below are a shallow embedding of the repository
scan-stream route (`src/unnamed/part_001`, with the deduplication step
shared verbatim with `src/app/api/scan-stream/route.ts`) and of the
client-side reconciler and sentiment aggregation in `src/app/page.tsx`.
Remote I/O (the news fetch and the Gemini call) is represented by
explicit parameters: the per-query fetch results and a per-batch oracle
giving the parsed classifier response (`none` = every retry attempt
failed).  The stable JavaScript `Array.prototype.sort` is modelled by
the stable `List.insertionSort`.
-/

/-- `overallSentiment` enumeration of the analysis payload. -/
inductive Sentiment
  | Bullish
  | Bearish
  | Mixed
  | Neutral
deriving DecidableEq, Repr

/-- Per-sector impact enumeration. -/
inductive Impact
  | Bullish
  | Bearish
  | Neutral
  | Uncertain
deriving DecidableEq, Repr

/-- Timeframe enumeration of a `SectorImpact`. -/
inductive Timeframe
  | ShortTerm
  | MediumTerm
  | LongTerm
deriving DecidableEq, Repr

/-- Confidence enumeration of a `SectorImpact`. -/
inductive Confidence
  | High
  | Medium
  | Low
deriving DecidableEq, Repr

/-- The `SectorImpact` record of the route. -/
structure SectorImpact where
  sector : String
  impact : Impact
  reasoning : String
  tickers : List String
  timeframe : Timeframe
  confidence : Confidence
deriving DecidableEq, Repr

/-- The `Article` record produced by the aggregator (the `publishedAt`
field models the epoch time value of the publication date,
i.e. `new Date(a.publishedAt).getTime()`). -/
structure Article where
  id : String
  title : String
  source : String
  url : String
  publishedAt : Int
  description : String
  category : String
deriving DecidableEq, Repr

/-- The `analysis` sub-record of an `AnalyzedArticle`. -/
structure Analysis where
  summary : String
  sectors : List SectorImpact
  overallSentiment : Sentiment
  keyInsight : String
deriving DecidableEq, Repr

/-- The legacy commodity-implication record (string-typed in the source). -/
structure Implications where
  gold : String
  silver : String
  rareMinerals : String
  stockMarkets : String
deriving DecidableEq, Repr

/-- `AnalyzedArticle extends Article` of the route. -/
structure AnalyzedArticle extends Article where
  region : String
  analysis : Analysis
  implications : Implications
deriving DecidableEq, Repr

/-- Model of JavaScript `pat.isPrefix`-style matching: does the character
list start with `pat`? -/
def charsStartWith : List Char → List Char → Bool
  | [], _ => true
  | _ :: _, [] => false
  | a :: as, b :: bs => a == b && charsStartWith as bs

/-- Substring containment on character lists. -/
def charsContain (pat : List Char) : List Char → Bool
  | [] => pat.isEmpty
  | c :: rest => charsStartWith pat (c :: rest) || charsContain pat rest

/-- Model of JavaScript `text.includes(pat)` (substring containment). -/
def strIncludes (s pat : String) : Bool := charsContain pat.data s.data

/-- Model of JavaScript `s.toLowerCase()` (ASCII-faithful). -/
def lowerStr (s : String) : String := ⟨s.data.map Char.toLower⟩

/-- JavaScript `m[k] || d` lookup in a literal string-keyed record. -/
def lookupOr (m : List (String × String)) (k d : String) : String :=
  match m.find? (fun p => p.1 == k) with
  | some p => p.2
  | none => d

/-- The `regionMap` table of `inferRegion`. -/
def regionMap : List (String × String) :=
  [("Economy", "Americas"), ("Markets", "Americas"),
   ("Policy", "Americas"), ("Politics", "Europe")]

/-- `inferRegion` of the route. -/
def inferRegion (category : String) : String :=
  lookupOr regionMap category "Americas"

/-- The `bullishKeywords` list of `createFallbackAnalysis`. -/
def bullishKeywords : List String :=
  ["surge", "soar", "rally", "gain", "rise", "jump", "boost", "growth",
   "profit", "beat", "record high", "bullish", "optimis"]

/-- The `bearishKeywords` list of `createFallbackAnalysis`. -/
def bearishKeywords : List String :=
  ["fall", "drop", "crash", "plunge", "decline", "loss", "cut", "recession",
   "crisis", "fear", "concern", "warn", "bearish", "pessimis"]

/-- The lowercased `title + " " + description` text scanned for cues. -/
def fallbackText (a : Article) : String :=
  lowerStr a.title ++ " " ++ lowerStr a.description

/-- `bullishKeywords.some(k => text.includes(k))`. -/
def hasBullishCue (a : Article) : Bool :=
  bullishKeywords.any (fun k => strIncludes (fallbackText a) k)

/-- `bearishKeywords.some(k => text.includes(k))`. -/
def hasBearishCue (a : Article) : Bool :=
  bearishKeywords.any (fun k => strIncludes (fallbackText a) k)

/-- The sentiment chosen by `createFallbackAnalysis` from the cue tests. -/
def fallbackSentiment (a : Article) : Sentiment :=
  if hasBullishCue a && hasBearishCue a then .Mixed
  else if hasBullishCue a then .Bullish
  else if hasBearishCue a then .Bearish
  else .Neutral

/-- The per-sector impact derivation
`Uncertain` when the sentiment is `Neutral` or `Mixed`, the sentiment itself otherwise. -/
def fallbackImpact : Sentiment → Impact
  | .Neutral => .Uncertain
  | .Mixed => .Uncertain
  | .Bullish => .Bullish
  | .Bearish => .Bearish

/-- Rendering of a sentiment value as the string it is in the source. -/
def sentimentStr : Sentiment → String
  | .Bullish => "Bullish"
  | .Bearish => "Bearish"
  | .Mixed => "Mixed"
  | .Neutral => "Neutral"

/-- The `sectorKeywords` table of `createFallbackAnalysis`, in the
source insertion order. -/
def sectorKeywords : List (String × List String) :=
  [("Technology", ["tech", "ai", "software", "chip", "semiconductor",
      "apple", "google", "microsoft", "nvidia", "meta"]),
   ("Financials", ["bank", "fed", "interest rate", "loan", "credit",
      "jpmorgan", "goldman", "finance"]),
   ("Energy", ["oil", "gas", "energy", "opec", "crude", "exxon",
      "chevron", "renewable", "solar"]),
   ("Healthcare", ["health", "drug", "pharma", "fda", "medical",
      "vaccine", "pfizer", "hospital"]),
   ("Defense", ["defense", "military", "pentagon", "weapon", "nato",
      "lockheed", "raytheon", "war"]),
   ("Consumer", ["retail", "consumer", "walmart", "amazon", "spending",
      "sales"]),
   ("Industrials", ["manufacturing", "industrial", "factory", "boeing",
      "caterpillar"]),
   ("Commodities", ["gold", "silver", "copper", "metal", "commodity",
      "mining"])]

/-- The sector impacts pushed by the keyword loop of
`createFallbackAnalysis` (one per matching `sectorKeywords` entry). -/
def matchedSectors (a : Article) (reason : String) : List SectorImpact :=
  (sectorKeywords.filter
      (fun p => p.2.any (fun k => strIncludes (fallbackText a) k))).map
    (fun p =>
      { sector := p.1
        impact := fallbackImpact (fallbackSentiment a)
        reasoning := reason
        tickers := []
        timeframe := .ShortTerm
        confidence := .Low })

/-- The `categoryMap` default table of `createFallbackAnalysis`. -/
def categoryMap : List (String × String) :=
  [("Economy", "Financials"), ("Markets", "Financials"),
   ("Policy", "Industrials"), ("Politics", "Defense")]

/-- The sectors of the fallback analysis: the keyword matches, or the
category-default sector when no keyword matched. -/
def fallbackSectors (a : Article) (reason : String) : List SectorImpact :=
  let s := matchedSectors a reason
  if s.isEmpty then
    [{ sector := lookupOr categoryMap a.category "Financials"
       impact := .Uncertain
       reasoning := reason
       tickers := []
       timeframe := .ShortTerm
       confidence := .Low }]
  else s

/-- `createFallbackAnalysis` of `src/unnamed/part_001`. -/
def createFallbackAnalysis (a : Article) (reason : String) : AnalyzedArticle :=
  { toArticle := a
    region := inferRegion a.category
    analysis :=
      { summary := reason
        sectors := fallbackSectors a reason
        overallSentiment := fallbackSentiment a
        keyInsight := "" }
    implications :=
      { gold := "Neutral"
        silver := "Neutral"
        rareMinerals := "Neutral"
        stockMarkets :=
          if fallbackSentiment a = .Neutral then "Neutral"
          else sentimentStr (fallbackSentiment a) } }

/-- One entry of the parsed `analyses` array of the Gemini response.
Every field is optional, mirroring the untyped JSON the route guards
against field by field. -/
structure GeminiAnalysis where
  articleNum : Option Int
  region : Option String
  summary : Option String
  overallSentiment : Option Sentiment
  keyInsight : Option String
  sectors : Option (List SectorImpact)
  gold : Option String
  silver : Option String
  rareMinerals : Option String
  stockMarkets : Option String
deriving DecidableEq, Repr

/-- JavaScript `o || d` for an optional string field (both `undefined`
and the empty string fall through to the default). -/
def strOr (o : Option String) (d : String) : String :=
  match o with
  | some s => if s = "" then d else s
  | none => d

/-- JavaScript truthiness of an optional string (`undefined` and `""`
are falsy). -/
def strTruthy (o : Option String) : Bool :=
  match o with
  | some s => s != ""
  | none => false

/-- The analyzed article built by `analyzeBatch` from a per-item
analysis that passed the `analysis && analysis.summary` guard. -/
def remoteResult (a : Article) (g : GeminiAnalysis) : AnalyzedArticle :=
  { toArticle := a
    region := strOr g.region (inferRegion a.category)
    analysis :=
      { summary := strOr g.summary ""
        sectors := g.sectors.getD []
        overallSentiment := g.overallSentiment.getD .Neutral
        keyInsight := strOr g.keyInsight "" }
    implications :=
      { gold := strOr g.gold "Neutral"
        silver := strOr g.silver "Neutral"
        rareMinerals := strOr g.rareMinerals "Neutral"
        stockMarkets := strOr g.stockMarkets "Neutral" } }

/-- The body of `articles.map((article, i) => ...)` in `analyzeBatch`:
look the analysis up by 1-based `articleNum`, fall back to array
position, and fall back to `createFallbackAnalysis` when the result is
missing or has no summary. -/
def analyzeOne (analyses : List GeminiAnalysis) (i : Nat) (a : Article) :
    AnalyzedArticle :=
  let found :=
    match analyses.find? (fun g => g.articleNum == some ((i : Int) + 1)) with
    | some g => some g
    | none => analyses.get? i
  match found with
  | some g =>
      if strTruthy g.summary then remoteResult a g
      else createFallbackAnalysis a "Analysis incomplete"
  | none => createFallbackAnalysis a "Analysis incomplete"

/-- The index-threaded map over the batch in `analyzeBatch`. -/
def analyzeFrom (analyses : List GeminiAnalysis) : Nat → List Article →
    List AnalyzedArticle
  | _, [] => []
  | i, a :: rest => analyzeOne analyses i a :: analyzeFrom analyses (i + 1) rest

/-- The pure core of `analyzeBatch`: mapping a successfully parsed
response onto the batch. -/
def analyzeBatchPure (batch : List Article) (analyses : List GeminiAnalysis) :
    List AnalyzedArticle :=
  analyzeFrom analyses 0 batch

/-- One iteration of the orchestrator batch loop: `outcome` is `some
analyses` when some retry attempt of `analyzeBatch` succeeded with the
given parsed response, `none` when every attempt threw.  An empty
`analyzedBatch` is re-created wholesale through the fallback classifier
(`if (analyzedBatch.length === 0)` in the source). -/
def resolveBatch (outcome : Option (List GeminiAnalysis))
    (batch : List Article) : List AnalyzedArticle :=
  let ab :=
    match outcome with
    | some analyses => analyzeBatchPure batch analyses
    | none => []
  if ab.isEmpty then
    batch.map (fun a => createFallbackAnalysis a "AI analysis unavailable")
  else ab

/-- The five event kinds of the server-push stream. -/
inductive ScanEvent
  | status (phase : String) (message : String) (total : Option Nat)
  | articles (items : List Article) (total : Nat)
  | analyzed (article : AnalyzedArticle) (current : Nat) (total : Nat)
  | complete (total : Nat)
  | error (message : String)
deriving DecidableEq, Repr

/-- The per-batch emission loop: `analyzedCount++` then one `analyzed`
event per article of the resolved batch. -/
def emitAnalyzed (total : Nat) : Nat → List AnalyzedArticle → List ScanEvent
  | _, [] => []
  | c, art :: rest => .analyzed art (c + 1) total :: emitAnalyzed total (c + 1) rest

/-- The deduplication pass of the route: one sweep with a seen-URL set,
dropping empty titles, the `[Removed]` sentinel, and already-seen URLs. -/
def dedupArticles : List String → List Article → List Article
  | _, [] => []
  | seen, a :: rest =>
    if a.url ∉ seen ∧ a.title ≠ "" ∧ a.title ≠ "[Removed]" then
      a :: dedupArticles (a.url :: seen) rest
    else dedupArticles seen rest

/-- Descending publication-time order: the sorted order produced by the
comparator `(a, b) => time(b) - time(a)`. -/
def laterEq (a b : Article) : Prop := b.publishedAt ≤ a.publishedAt

instance : DecidableRel laterEq := fun a b =>
  inferInstanceAs (Decidable (b.publishedAt ≤ a.publishedAt))

instance : IsTotal Article laterEq :=
  ⟨fun a b => Int.le_total b.publishedAt a.publishedAt⟩

instance : IsTrans Article laterEq :=
  ⟨fun _ _ _ h h' => Int.le_trans h' h⟩

/-- The deduplicate-sort-truncate step producing `sortedArticles`. -/
def dedupSortTrunc (l : List Article) : List Article :=
  (List.insertionSort laterEq (dedupArticles [] l)).take 100

/-- The batch loop of the route, with fuel (the loop consumes at least
one article per iteration, so `fuel = l.length` always suffices):
slice off `batchSize = 5` articles, resolve them remotely or through
the fallback, emit one `analyzed` event per item, recurse. -/
def batchLoopF (oracle : Nat → Option (List GeminiAnalysis)) (total : Nat) :
    Nat → Nat → Nat → List Article → List ScanEvent
  | 0, _, _, _ => []
  | _ + 1, _, _, [] => []
  | fuel + 1, bi, c, a :: rest =>
    let batch := a :: rest.take 4
    let ab := resolveBatch (oracle bi) batch
    emitAnalyzed total c ab ++
      batchLoopF oracle total fuel (bi + 1) (c + ab.length) (rest.drop 4)

/-- The event stream emitted by one run of the scan-stream route, given
the per-query fetch results and the per-batch classifier oracle. -/
def scanEvents (fetched : List (List Article))
    (oracle : Nat → Option (List GeminiAnalysis)) : List ScanEvent :=
  let sorted := dedupSortTrunc fetched.flatten
  .status "fetching" "Fetching news articles..." none ::
    .articles sorted sorted.length ::
      .status "analyzing" "Analyzing articles..." (some sorted.length) ::
        (batchLoopF oracle sorted.length sorted.length 0 0 sorted ++
          [.complete sorted.length])

/-- A response of the `GET` handler: either a plain HTTP JSON response
or the long-lived event stream. -/
inductive ScanResponse
  | httpJson (status : Nat) (body : String)
  | eventStream (events : List ScanEvent)
deriving DecidableEq, Repr

/-- Truthiness of an environment variable (`process.env` yields a
string or `undefined`; the empty string is falsy). -/
def envTruthy (o : Option String) : Bool :=
  match o with
  | some s => s != ""
  | none => false

/-- The `GET` handler of the scan-stream route: the credential check,
then the streamed pipeline. -/
def scanStreamGET (newsApiKey geminiApiKey : Option String)
    (fetched : List (List Article))
    (oracle : Nat → Option (List GeminiAnalysis)) : ScanResponse :=
  if !envTruthy newsApiKey || !envTruthy geminiApiKey then
    .httpJson 500 "\x7b\"error\":\"API keys not configured\"\x7d"
  else
    .eventStream (scanEvents fetched oracle)

/-- The `analyzed` payload articles of an event list, in emission order. -/
def analyzedArticlesOf : List ScanEvent → List AnalyzedArticle
  | [] => []
  | .analyzed a _ _ :: rest => a :: analyzedArticlesOf rest
  | _ :: rest => analyzedArticlesOf rest

/-- The `current` counters of the `analyzed` events, in emission order. -/
def currentsOf : List ScanEvent → List Nat
  | [] => []
  | .analyzed _ c _ :: rest => c :: currentsOf rest
  | _ :: rest => currentsOf rest

/-- The item list of the first `articles` event. -/
def announcedOf : List ScanEvent → List Article
  | [] => []
  | .articles items _ :: _ => items
  | _ :: rest => announcedOf rest

/-- The total of the first `articles` event. -/
def announcedTotalOf : List ScanEvent → Nat
  | [] => 0
  | .articles _ t :: _ => t
  | _ :: rest => announcedTotalOf rest

/-- The client-side `AnalyzedArticle` shape of `page.tsx`: several
fields are optional at runtime (items of the `articles` event carry no
region, analysis or implications yet). -/
structure ClientArticle where
  id : Option String
  title : String
  source : String
  url : String
  publishedAt : String
  region : Option String
  category : Option String
  analysis : Option Analysis
  implications : Option Implications
  pending : Bool
deriving DecidableEq, Repr

/-- The identity key used by the reconciler: `article.id || article.url`. -/
def keyOf (a : ClientArticle) : String :=
  match a.id with
  | some s => if s = "" then a.url else s
  | none => a.url

/-- Client-side view of the stream events, as parsed by `scanNews`. -/
inductive ClientEvent
  | status (message : String) (total : Option Nat)
  | articles (items : List ClientArticle) (total : Nat)
  | analyzed (article : ClientArticle) (current : Nat) (total : Nat)
  | complete (total : Nat)
  | error (message : String)
deriving DecidableEq, Repr

/-- The pieces of client state touched by the `scanNews` handlers. -/
structure ScanState where
  analyzedMap : List (String × ClientArticle)
  pendingArticles : List ClientArticle
  allArticles : List ClientArticle
  total : Nat
  progressCurrent : Nat
  progressTotal : Nat
  progressMsg : String
  errorMsg : Option String
  loading : Bool
deriving DecidableEq, Repr

/-- State right after `scanNews` resets everything and creates the
fresh `analyzedArticlesMap`. -/
def initialScanState : ScanState :=
  { analyzedMap := []
    pendingArticles := []
    allArticles := []
    total := 0
    progressCurrent := 0
    progressTotal := 0
    progressMsg := "Connecting..."
    errorMsg := none
    loading := true }

/-- Insertion-ordered `Map.set`: overwrite in place when the key
exists, append otherwise. -/
def mapSet (m : List (String × ClientArticle)) (k : String)
    (v : ClientArticle) : List (String × ClientArticle) :=
  if m.any (fun p => p.1 == k) then
    m.map (fun p => if p.1 == k then (k, v) else p)
  else m ++ [(k, v)]

/-- Default implications attached to pending items by the `articles`
handler. -/
def defaultImplications : Implications :=
  { gold := "Neutral", silver := "Neutral",
    rareMinerals := "Neutral", stockMarkets := "Neutral" }

/-- The normalization applied to each announced item by the `articles`
handler: mark pending, default the region and implications. -/
def toPendingArticle (a : ClientArticle) : ClientArticle :=
  { a with
    pending := true
    region := some (strOr a.region "Americas")
    implications := some (a.implications.getD defaultImplications) }

/-- The event reducer implemented by the `scanNews` listeners. -/
def stepScan (s : ScanState) (e : ClientEvent) : ScanState :=
  match e with
  | .status msg t =>
    { s with
      progressMsg := msg
      progressTotal :=
        match t with
        | some n => if n ≠ 0 then n else s.progressTotal
        | none => s.progressTotal }
  | .articles items t =>
    { s with
      pendingArticles := items.map toPendingArticle
      total := t
      progressTotal := t }
  | .analyzed art cur tot =>
    let art' := { art with pending := false }
    let m := mapSet s.analyzedMap (keyOf art) art'
    { s with
      analyzedMap := m
      progressCurrent := cur
      progressTotal := tot
      progressMsg := s!"Analyzing: {cur}/{tot}"
      pendingArticles :=
        s.pendingArticles.map (fun a => if keyOf a = keyOf art then art' else a)
      allArticles := m.map (fun p => p.2) }
  | .complete t =>
    { s with
      loading := false
      pendingArticles := []
      allArticles := s.analyzedMap.map (fun p => p.2)
      total := t
      progressMsg := "Generating briefing..." }
  | .error msg =>
    { s with
      loading := false
      errorMsg := some msg
      progressMsg := "" }

/-- A whole client run: fold the reducer over the consumed events. -/
def runClient (events : List ClientEvent) : ScanState :=
  events.foldl stepScan initialScanState

/-- Is the event an `articles` event? -/
def isArticlesEvent : ClientEvent → Bool
  | .articles _ _ => true
  | _ => false

/-- The per-article contribution to the aggregate sentiment score
(`+1` Bullish, `-1` Bearish, `0` otherwise or when unanalyzed). -/
def articleSentimentDelta (a : ClientArticle) : Int :=
  match a.analysis with
  | some an =>
    if an.overallSentiment = .Bullish then 1
    else if an.overallSentiment = .Bearish then -1
    else 0
  | none => 0

/-- JavaScript `Math.round` on the exact rational value. -/
def jsRound (q : ℚ) : Int := ⌊q + 1 / 2⌋

/-- `calculateSentiment` of `page.tsx`. -/
def calculateSentiment (articles : List ClientArticle) : Int :=
  let score := (articles.map articleSentimentDelta).sum
  if articles.length ≠ 0 then
    jsRound ((score : ℚ) / (articles.length : ℚ) * 100)
  else 0

/-- Does the analyzed article equal a fallback-classifier result for
the given item (for some reason string)? -/
def isFallbackResultOf (out : AnalyzedArticle) (a : Article) : Prop :=
  ∃ r, out = createFallbackAnalysis a r

/-- Is the `GET` result the long-lived event stream? -/
def isEventStreamResponse : ScanResponse → Bool
  | .eventStream _ => true
  | _ => false

/-- The worked example of the spec: title `Fed raises rates`,
description `rate hike surges bank stocks`. -/
def fedArticle : Article :=
  { id := "Economy-0-0", title := "Fed raises rates", source := "Reuters",
    url := "https://example.com/fed", publishedAt := 0,
    description := "rate hike surges bank stocks", category := "Economy" }

/-- An item with a bullish cue (`profit`) but no sector keyword, so the
fallback classifier takes the category-default sector path. -/
def profitArticle : Article :=
  { id := "Economy-1-0", title := "profit", source := "Wire",
    url := "https://example.com/profit", publishedAt := 0,
    description := "", category := "Economy" }

/-- First item of the mixed-resolution batch. -/
def remoteArticle : Article :=
  { id := "Markets-0-0", title := "Markets update", source := "Wire",
    url := "https://example.com/m1", publishedAt := 100,
    description := "", category := "Markets" }

/-- Second item of the mixed-resolution batch (the classifier response
carries no analysis for it). -/
def staleArticle : Article :=
  { id := "Markets-1-0", title := "Policy briefing", source := "Wire",
    url := "https://example.com/m2", publishedAt := 50,
    description := "", category := "Markets" }

/-- A classifier response covering only article number 1 of a batch. -/
def remoteOnlyAnalysis : GeminiAnalysis :=
  { articleNum := some 1, region := some "Europe",
    summary := some "Rate cut lifts equities",
    overallSentiment := some .Bullish, keyInsight := some "Buy banks",
    sectors := some [⟨"Financials", .Bullish, "Remote reasoning",
      ["XLF"], .ShortTerm, .High⟩],
    gold := some "Neutral", silver := some "Neutral",
    rareMinerals := some "Neutral", stockMarkets := some "Bullish" }

/-- Oracle: the first batch succeeds remotely with `remoteOnlyAnalysis`
as the only per-item analysis; later batches fail every retry. -/
def mixedOracle : Nat → Option (List GeminiAnalysis) :=
  fun i => if i = 0 then some [remoteOnlyAnalysis] else none

/-- A client item as delivered by the `articles` event. -/
def announcedItem : ClientArticle :=
  { id := some "id1", title := "T1", source := "W",
    url := "https://example.com/c1", publishedAt := "2025-01-01",
    region := none, category := some "Economy", analysis := none,
    implications := none, pending := false }

/-- A client item whose identity key was never announced. -/
def strayItem : ClientArticle :=
  { id := some "stray", title := "T2", source := "W",
    url := "https://example.com/c2", publishedAt := "2025-01-02",
    region := some "Americas", category := none, analysis := none,
    implications := none, pending := false }

/-- Two items agreeing exactly on title, description and category, and
nowhere else. -/
def detItemA : Article :=
  { id := "a", title := "Oil surges", source := "W",
    url := "https://example.com/d1", publishedAt := 1,
    description := "crude rally", category := "Energy" }

/-- See `detItemA`. -/
def detItemB : Article :=
  { id := "b", title := "Oil surges", source := "X",
    url := "https://example.com/d2", publishedAt := 2,
    description := "crude rally", category := "Energy" }

theorem fallbackText_congr {a b : Article} (ht : a.title = b.title)
    (hd : a.description = b.description) : fallbackText a = fallbackText b := by
  unfold fallbackText
  rw [ht, hd]

theorem fallbackSentiment_congr {a b : Article} (ht : a.title = b.title)
    (hd : a.description = b.description) :
    fallbackSentiment a = fallbackSentiment b := by
  unfold fallbackSentiment hasBullishCue hasBearishCue
  rw [fallbackText_congr ht hd]

/-- Claim C4: the fallback classifier is deterministic in the item
title, description and category together with the reason string: two
items agreeing on those fields receive the same analysis (sentiment and
sector-impact list) and the same commodity-implication record. -/
theorem fallback_classifier_deterministic (a b : Article) (r : String)
    (ht : a.title = b.title) (hd : a.description = b.description)
    (hc : a.category = b.category) :
    (createFallbackAnalysis a r).analysis = (createFallbackAnalysis b r).analysis ∧
      (createFallbackAnalysis a r).implications =
        (createFallbackAnalysis b r).implications := by
  have htext : fallbackText a = fallbackText b := fallbackText_congr ht hd
  have hsent : fallbackSentiment a = fallbackSentiment b :=
    fallbackSentiment_congr ht hd
  have hmatch : matchedSectors a r = matchedSectors b r := by
    unfold matchedSectors
    rw [htext, hsent]
  have hsect : fallbackSectors a r = fallbackSectors b r := by
    unfold fallbackSectors
    rw [hmatch, hc]
  constructor
  · simp only [createFallbackAnalysis]
    rw [hsect, hsent]
  · simp only [createFallbackAnalysis]
    rw [hsent]

/-- Witness for C4 at two concrete items differing only outside title,
description and category. -/
theorem fallback_classifier_deterministic_witness :
    detItemA.title = detItemB.title ∧ detItemA.description = detItemB.description ∧
      detItemA.category = detItemB.category ∧
      ((createFallbackAnalysis detItemA "probe").analysis = (createFallbackAnalysis detItemB "probe").analysis ∧
        (createFallbackAnalysis detItemA "probe").implications =
          (createFallbackAnalysis detItemB "probe").implications) :=
  ⟨rfl, rfl, rfl,
    fallback_classifier_deterministic detItemA detItemB "probe" rfl rfl rfl⟩

/-- Claim C5: the fallback sentiment is exactly the keyword-membership
derivation — `Mixed` iff both cue sets match the lowercased
title+description, `Bullish` iff only a bullish cue matches, `Bearish`
iff only a bearish cue matches, `Neutral` iff neither; and on the
worked example of the spec (`Fed raises rates` / `rate hike surges bank
stocks`) it yields `Bullish`. -/
theorem fallback_sentiment_from_cues (a : Article) (r : String) :
    ((createFallbackAnalysis a r).analysis.overallSentiment = .Mixed ↔
        hasBullishCue a = true ∧ hasBearishCue a = true) ∧
      ((createFallbackAnalysis a r).analysis.overallSentiment = .Bullish ↔
        hasBullishCue a = true ∧ hasBearishCue a = false) ∧
      ((createFallbackAnalysis a r).analysis.overallSentiment = .Bearish ↔
        hasBullishCue a = false ∧ hasBearishCue a = true) ∧
      ((createFallbackAnalysis a r).analysis.overallSentiment = .Neutral ↔
        hasBullishCue a = false ∧ hasBearishCue a = false) ∧
      (createFallbackAnalysis fedArticle r).analysis.overallSentiment = .Bullish := by
  have hs : (createFallbackAnalysis a r).analysis.overallSentiment =
      fallbackSentiment a := rfl
  have hf : (createFallbackAnalysis fedArticle r).analysis.overallSentiment =
      fallbackSentiment fedArticle := rfl
  refine ⟨?_, ?_, ?_, ?_, by rw [hf]; decide⟩ <;> rw [hs] <;>
    cases hb : hasBullishCue a <;> cases he : hasBearishCue a <;>
      simp [fallbackSentiment, hb, he]

/-- Counterexample for C6: for an item with a bullish cue but no sector
keyword (`profitArticle`), the sentiment is `Bullish` yet the single
(category-default) `SectorImpact` has impact `Uncertain`, not
`Bullish` as the claim requires. -/
theorem fallback_default_impact_cex :
    (createFallbackAnalysis profitArticle "AI analysis unavailable").analysis.overallSentiment
        = .Bullish ∧
      ((createFallbackAnalysis profitArticle "AI analysis unavailable").analysis.sectors).map
          SectorImpact.impact = [.Uncertain] ∧
      Impact.Uncertain ≠ Impact.Bullish := by
  exact ⟨by decide, by decide, by decide⟩

/-- Claim C6 (amended): the fallback classifier always returns at least
one `SectorImpact`; every returned `SectorImpact` has confidence `Low`,
timeframe `Short-term`, an empty ticker list and reasoning equal to the
supplied reason string; the sector impacts emitted from keyword matches
carry the sentiment-derived impact (`Uncertain` when the sentiment is
`Neutral` or `Mixed`, the sentiment otherwise), while the
category-default `SectorImpact` (emitted exactly when no sector keyword
matched) always has impact `Uncertain` regardless of the sentiment. -/
theorem fallback_sectors_shape (a : Article) (r : String) :
    (createFallbackAnalysis a r).analysis.sectors ≠ [] ∧
      ∀ s ∈ (createFallbackAnalysis a r).analysis.sectors,
        s.confidence = .Low ∧ s.timeframe = .ShortTerm ∧ s.tickers = [] ∧
          s.reasoning = r ∧
          s.impact = (if matchedSectors a r = [] then Impact.Uncertain
            else fallbackImpact (fallbackSentiment a)) := by
  have hs : (createFallbackAnalysis a r).analysis.sectors =
      fallbackSectors a r := rfl
  rw [hs]
  unfold fallbackSectors
  by_cases h : (matchedSectors a r).isEmpty
  · have hnil : matchedSectors a r = [] := List.isEmpty_iff.mp h
    simp only [h, if_true]
    refine ⟨by simp, ?_⟩
    intro s hsmem
    rcases List.mem_singleton.mp hsmem with rfl
    simp [hnil]
  · have hne : matchedSectors a r ≠ [] := by
      intro hc
      rw [hc] at h
      exact h rfl
    simp only [h, if_false]
    refine ⟨hne, ?_⟩
    intro s hsmem
    unfold matchedSectors at hsmem
    rcases List.mem_map.mp hsmem with ⟨p, _, rfl⟩
    simp [hne]

/-- Witness for C6 at the worked example and its first (keyword-matched)
sector impact. -/
theorem fallback_sectors_shape_witness :
    (SectorImpact.mk "Technology" .Bullish "probe" [] .ShortTerm .Low ∈
        (createFallbackAnalysis fedArticle "probe").analysis.sectors) ∧
      (SectorImpact.confidence
            (SectorImpact.mk "Technology" .Bullish "probe" [] .ShortTerm .Low) = .Low ∧
        SectorImpact.timeframe
            (SectorImpact.mk "Technology" .Bullish "probe" [] .ShortTerm .Low) = .ShortTerm ∧
        SectorImpact.tickers
            (SectorImpact.mk "Technology" .Bullish "probe" [] .ShortTerm .Low) = [] ∧
        SectorImpact.reasoning
            (SectorImpact.mk "Technology" .Bullish "probe" [] .ShortTerm .Low) = "probe" ∧
        SectorImpact.impact
            (SectorImpact.mk "Technology" .Bullish "probe" [] .ShortTerm .Low) =
          (if matchedSectors fedArticle "probe" = [] then Impact.Uncertain
            else fallbackImpact (fallbackSentiment fedArticle))) :=
  ⟨by decide,
    (fallback_sectors_shape fedArticle "probe").2
      (SectorImpact.mk "Technology" .Bullish "probe" [] .ShortTerm .Low) (by decide)⟩

/-- Counterexample for C9: with the news key missing, the `GET` handler
returns a plain HTTP 500 JSON response and never opens the event
stream, so the failure is not surfaced as a terminal `error` event of
the stream. -/
theorem config_error_cex :
    scanStreamGET none (some "gemini-key") [[fedArticle]] (fun _ => none) =
        .httpJson 500 "\x7b\"error\":\"API keys not configured\"\x7d" ∧
      isEventStreamResponse
          (scanStreamGET none (some "gemini-key") [[fedArticle]] (fun _ => none)) =
        false := by
  exact ⟨by decide, by decide⟩

/-- Claim C9 (amended): when a required upstream credential is missing
(or empty), the scan endpoint fails immediately, before any fetch, with
the fixed HTTP 500 JSON body — the result does not depend on the fetch
results or the classifier at all — and no event stream (hence no
stream `error` event) is produced. -/
theorem config_error_http_500 (nk gk : Option String)
    (fetched : List (List Article))
    (oracle : Nat → Option (List GeminiAnalysis))
    (h : envTruthy nk = false ∨ envTruthy gk = false) :
    scanStreamGET nk gk fetched oracle =
      .httpJson 500 "\x7b\"error\":\"API keys not configured\"\x7d" := by
  unfold scanStreamGET
  rcases h with h | h <;> simp [h]

/-- Witness for C9 (amended) with the news key absent. -/
theorem config_error_http_500_witness :
    (envTruthy none = false ∨ envTruthy (some "k") = false) ∧
      scanStreamGET none (some "k") [] (fun _ => none) =
        .httpJson 500 "\x7b\"error\":\"API keys not configured\"\x7d" :=
  ⟨Or.inl rfl, config_error_http_500 none (some "k") [] (fun _ => none) (Or.inl rfl)⟩

theorem articleSentimentDelta_bounds (a : ClientArticle) :
    -1 ≤ articleSentimentDelta a ∧ articleSentimentDelta a ≤ 1 := by
  unfold articleSentimentDelta
  cases h : a.analysis
  · simp
  · dsimp only
    split
    · omega
    · split <;> omega

theorem sentimentScore_bounds (l : List ClientArticle) :
    -(l.length : Int) ≤ (l.map articleSentimentDelta).sum ∧
      (l.map articleSentimentDelta).sum ≤ (l.length : Int) := by
  induction l with
  | nil => simp
  | cons a rest ih =>
    have ha := articleSentimentDelta_bounds a
    simp only [List.map_cons, List.sum_cons, List.length_cons]
    push_cast
    omega

/-- Claim C10: the aggregate sentiment score is `0` on the empty list
and an integer between `-100` and `100` inclusive on every non-empty
list. -/
theorem calculateSentiment_bounds :
    calculateSentiment [] = 0 ∧
      ∀ l : List ClientArticle, l ≠ [] →
        -100 ≤ calculateSentiment l ∧ calculateSentiment l ≤ 100 := by
  constructor
  · rfl
  · intro l hl
    have hlen : l.length ≠ 0 := fun h => hl (List.length_eq_zero.mp h)
    have hpos : (0 : ℚ) < (l.length : ℚ) := by
      exact_mod_cast Nat.pos_of_ne_zero hlen
    obtain ⟨hlo, hhi⟩ := sentimentScore_bounds l
    set score := (l.map articleSentimentDelta).sum with hscore
    have hqlo : (-100 : ℚ) ≤ (score : ℚ) / (l.length : ℚ) * 100 := by
      have h1 : (-(l.length : Int) : ℚ) ≤ (score : ℚ) := by exact_mod_cast hlo
      have h2 : (-1 : ℚ) ≤ (score : ℚ) / (l.length : ℚ) := by
        rw [le_div_iff₀ hpos]
        push_cast at h1 ⊢
        linarith
      linarith
    have hqhi : (score : ℚ) / (l.length : ℚ) * 100 ≤ 100 := by
      have h1 : (score : ℚ) ≤ ((l.length : Int) : ℚ) := by exact_mod_cast hhi
      have h2 : (score : ℚ) / (l.length : ℚ) ≤ 1 := by
        rw [div_le_one hpos]
        push_cast at h1 ⊢
        linarith
      linarith
    unfold calculateSentiment jsRound
    rw [← hscore]
    simp only [hlen, ne_eq, not_false_iff, if_true]
    constructor
    · exact Int.le_floor.mpr (by push_cast; linarith)
    · have hlt : ⌊(score : ℚ) / (l.length : ℚ) * 100 + 1 / 2⌋ < 101 :=
        Int.floor_lt.mpr (by push_cast; linarith)
      omega

/-- Witness for C10 on a concrete one-element list. -/
theorem calculateSentiment_bounds_witness :
    ([announcedItem] : List ClientArticle) ≠ [] ∧
      (-100 ≤ calculateSentiment [announcedItem] ∧
        calculateSentiment [announcedItem] ≤ 100) :=
  ⟨by decide, (calculateSentiment_bounds).2 [announcedItem] (by decide)⟩

/-- Counterexample for C3: after an `articles` event announcing only
`announcedItem`, an `analyzed` event for the unannounced key `stray` is
attached to the analyzed-articles map under that unknown key. -/
theorem reconciler_unknown_key_cex :
    "stray" ∈ (runClient [.articles [announcedItem] 1,
        .analyzed strayItem 1 1]).analyzedMap.map Prod.fst ∧
      "stray" ∉ [announcedItem].map keyOf := by
  exact ⟨by decide, by decide⟩

theorem keyOf_toPendingArticle (a : ClientArticle) :
    keyOf (toPendingArticle a) = keyOf a := rfl

theorem stepScan_pending_keys (s : ScanState) (e : ClientEvent)
    (he : isArticlesEvent e = false) :
    ∀ k ∈ (stepScan s e).pendingArticles.map keyOf,
      k ∈ s.pendingArticles.map keyOf := by
  intro k hk
  cases e with
  | status msg t => exact hk
  | articles items t => simp [isArticlesEvent] at he
  | analyzed art cur tot =>
    simp only [stepScan, List.map_map, List.mem_map, Function.comp] at hk
    rcases hk with ⟨a, ha, hkey⟩
    refine List.mem_map.mpr ⟨a, ha, ?_⟩
    by_cases hc : keyOf a = keyOf art
    · rw [← hkey]
      simp only [hc, if_true]
      rfl
    · rw [← hkey]
      simp [hc]
  | complete t => simp [stepScan] at hk
  | error msg => exact hk

theorem foldl_stepScan_pending_keys :
    ∀ (evs : List ClientEvent) (s : ScanState),
      (∀ e ∈ evs, isArticlesEvent e = false) →
      ∀ k ∈ (evs.foldl stepScan s).pendingArticles.map keyOf,
        k ∈ s.pendingArticles.map keyOf := by
  intro evs
  induction evs with
  | nil => intro s _ k hk; exact hk
  | cons e rest ih =>
    intro s hno k hk
    have hstep := stepScan_pending_keys s e (hno e (List.mem_cons_self e rest))
    have hrest := ih (stepScan s e)
      (fun e' he' => hno e' (List.mem_cons_of_mem e he'))
    exact hstep k (hrest k hk)

/-- Claim C3 (amended): in any client run that starts with the single
`articles` event, every identity key present in the pending-article
list stays within the initially announced key set — the `articles`
handler re-keys nothing and the `analyzed` handler only replaces
entries in place — but the analyzed-articles map itself accepts results
under keys that were never announced (see the counterexample). -/
theorem reconciler_pending_keys_announced (items : List ClientArticle)
    (t : Nat) (evs : List ClientEvent)
    (hno : ∀ e ∈ evs, isArticlesEvent e = false) :
    ∀ k ∈ (runClient (.articles items t :: evs)).pendingArticles.map keyOf,
      k ∈ items.map keyOf := by
  intro k hk
  have hinit : (stepScan initialScanState (.articles items t)).pendingArticles.map keyOf
      = items.map keyOf := by
    simp only [stepScan, List.map_map]
    exact List.map_congr_left (fun a _ => keyOf_toPendingArticle a)
  have := foldl_stepScan_pending_keys evs
    (stepScan initialScanState (.articles items t)) hno k hk
  rwa [hinit] at this

/-- Witness for C3 (amended): the announced key `id1` survives an
`analyzed` event for an unknown key and is still among the announced
keys. -/
theorem reconciler_pending_keys_announced_witness :
    (∀ e ∈ [ClientEvent.analyzed strayItem 1 1], isArticlesEvent e = false) ∧
      "id1" ∈ (runClient [.articles [announcedItem] 1,
          .analyzed strayItem 1 1]).pendingArticles.map keyOf ∧
      "id1" ∈ [announcedItem].map keyOf :=
  ⟨by decide, by decide,
    reconciler_pending_keys_announced [announcedItem] 1
      [.analyzed strayItem 1 1] (by decide) "id1" (by decide)⟩

theorem dedupArticles_mem :
    ∀ (l : List Article) (seen : List String) (a : Article),
      a ∈ dedupArticles seen l →
      a.title ≠ "" ∧ a.title ≠ "[Removed]" ∧ a.url ∉ seen := by
  intro l
  induction l with
  | nil => intro seen a h; simp [dedupArticles] at h
  | cons b rest ih =>
    intro seen a h
    unfold dedupArticles at h
    split at h
    next hcond =>
      rcases List.mem_cons.mp h with rfl | hmem
      · exact ⟨hcond.2.1, hcond.2.2, hcond.1⟩
      · have hrec := ih (b.url :: seen) a hmem
        exact ⟨hrec.1, hrec.2.1, fun hs => hrec.2.2 (List.mem_cons_of_mem _ hs)⟩
    next => exact ih seen a h

theorem dedupArticles_urls_nodup :
    ∀ (l : List Article) (seen : List String),
      ((dedupArticles seen l).map Article.url).Nodup := by
  intro l
  induction l with
  | nil => intro seen; simp [dedupArticles]
  | cons b rest ih =>
    intro seen
    unfold dedupArticles
    split
    next hcond =>
      simp only [List.map_cons, List.nodup_cons]
      refine ⟨?_, ih _⟩
      intro hmem
      rcases List.mem_map.mp hmem with ⟨c, hc, hcu⟩
      have := (dedupArticles_mem rest (b.url :: seen) c hc).2.2
      exact this (hcu ▸ List.mem_cons_self _ _)
    next => exact ih _

theorem dedupArticles_eq_self :
    ∀ (l : List Article) (seen : List String),
      (∀ a ∈ l, a.title ≠ "" ∧ a.title ≠ "[Removed]" ∧ a.url ∉ seen) →
      (l.map Article.url).Nodup → dedupArticles seen l = l := by
  intro l
  induction l with
  | nil => intro seen _ _; rfl
  | cons b rest ih =>
    intro seen hgood hnodup
    have hb := hgood b (List.mem_cons_self _ _)
    simp only [List.map_cons, List.nodup_cons] at hnodup
    unfold dedupArticles
    rw [if_pos ⟨hb.2.2, hb.1, hb.2.1⟩]
    congr 1
    refine ih (b.url :: seen) ?_ hnodup.2
    intro a ha
    have hga := hgood a (List.mem_cons_of_mem _ ha)
    refine ⟨hga.1, hga.2.1, ?_⟩
    intro hs
    rcases List.mem_cons.mp hs with heq | hseen
    · exact hnodup.1 (List.mem_map.mpr ⟨a, ha, heq⟩)
    · exact hga.2.2 hseen

theorem mem_of_mem_dedupSortTrunc {l : List Article} {a : Article}
    (h : a ∈ dedupSortTrunc l) : a ∈ dedupArticles [] l := by
  unfold dedupSortTrunc at h
  exact (List.mem_insertionSort _).mp ((List.take_sublist _ _).subset h)

theorem dedupSortTrunc_urls_nodup (l : List Article) :
    ((dedupSortTrunc l).map Article.url).Nodup := by
  have hperm : List.Perm (List.insertionSort laterEq (dedupArticles [] l))
      (dedupArticles [] l) := List.perm_insertionSort _ _
  have h1 : ((List.insertionSort laterEq (dedupArticles [] l)).map
      Article.url).Nodup :=
    (hperm.map Article.url).nodup_iff.mpr (dedupArticles_urls_nodup l [])
  exact List.Nodup.sublist ((List.take_sublist _ _).map _) h1

theorem dedupSortTrunc_sorted (l : List Article) :
    (dedupSortTrunc l).Sorted laterEq :=
  List.Pairwise.sublist (List.take_sublist _ _)
    (List.sorted_insertionSort laterEq _)

theorem dedupSortTrunc_length (l : List Article) :
    (dedupSortTrunc l).length ≤ 100 := by
  unfold dedupSortTrunc
  simp only [List.length_take]
  omega

/-- Claim C7: the deduplicate-sort-truncate step is idempotent — run on
its own output it returns that output unchanged — and its output
carries pairwise-distinct identity keys (URLs). -/
theorem dedupSortTrunc_idempotent (l : List Article) :
    dedupSortTrunc (dedupSortTrunc l) = dedupSortTrunc l ∧
      ((dedupSortTrunc l).map Article.url).Nodup := by
  refine ⟨?_, dedupSortTrunc_urls_nodup l⟩
  have hgood : ∀ a ∈ dedupSortTrunc l,
      a.title ≠ "" ∧ a.title ≠ "[Removed]" ∧ a.url ∉ ([] : List String) :=
    fun a ha => dedupArticles_mem l [] a (mem_of_mem_dedupSortTrunc ha)
  have hd : dedupArticles [] (dedupSortTrunc l) = dedupSortTrunc l :=
    dedupArticles_eq_self _ [] hgood (dedupSortTrunc_urls_nodup l)
  have hs : List.insertionSort laterEq (dedupSortTrunc l) = dedupSortTrunc l :=
    List.Sorted.insertionSort_eq (dedupSortTrunc_sorted l)
  show (List.insertionSort laterEq
      (dedupArticles [] (dedupSortTrunc l))).take 100 = dedupSortTrunc l
  rw [hd, hs]
  exact List.take_of_length_le (dedupSortTrunc_length l)

theorem createFallbackAnalysis_toArticle (a : Article) (r : String) :
    (createFallbackAnalysis a r).toArticle = a := rfl

theorem remoteResult_toArticle (a : Article) (g : GeminiAnalysis) :
    (remoteResult a g).toArticle = a := rfl

theorem analyzeOne_toArticle (g : List GeminiAnalysis) (i : Nat) (a : Article) :
    (analyzeOne g i a).toArticle = a := by
  unfold analyzeOne
  split
  · dsimp only
    split <;> rfl
  · dsimp only
    split
    · split <;> rfl
    · rfl

theorem analyzeFrom_toArticle (g : List GeminiAnalysis) :
    ∀ (l : List Article) (i : Nat),
      (analyzeFrom g i l).map AnalyzedArticle.toArticle = l := by
  intro l
  induction l with
  | nil => intro i; rfl
  | cons a rest ih =>
    intro i
    simp [analyzeFrom, analyzeOne_toArticle, ih]

theorem analyzeFrom_length (g : List GeminiAnalysis) (l : List Article)
    (i : Nat) : (analyzeFrom g i l).length = l.length := by
  have := congrArg List.length (analyzeFrom_toArticle g l i)
  simpa using this

theorem resolveBatch_none (batch : List Article) :
    resolveBatch none batch =
      batch.map (fun a => createFallbackAnalysis a "AI analysis unavailable") := rfl

theorem resolveBatch_some_cons (g : List GeminiAnalysis) (b : Article)
    (rest : List Article) :
    resolveBatch (some g) (b :: rest) = analyzeBatchPure (b :: rest) g := rfl

theorem map_createFallbackAnalysis_toArticle (batch : List Article) (r : String) :
    (batch.map (fun a => createFallbackAnalysis a r)).map
      AnalyzedArticle.toArticle = batch := by
  induction batch with
  | nil => rfl
  | cons a rest ih => simp [createFallbackAnalysis_toArticle, ih]

theorem resolveBatch_toArticle (o : Option (List GeminiAnalysis))
    (batch : List Article) :
    (resolveBatch o batch).map AnalyzedArticle.toArticle = batch := by
  cases o with
  | none =>
    rw [resolveBatch_none]
    exact map_createFallbackAnalysis_toArticle batch _
  | some g =>
    cases batch with
    | nil => rfl
    | cons b rest =>
      rw [resolveBatch_some_cons]
      exact analyzeFrom_toArticle g (b :: rest) 0

theorem resolveBatch_length (o : Option (List GeminiAnalysis))
    (batch : List Article) : (resolveBatch o batch).length = batch.length := by
  have := congrArg List.length (resolveBatch_toArticle o batch)
  simpa using this

theorem analyzedArticlesOf_append (xs ys : List ScanEvent) :
    analyzedArticlesOf (xs ++ ys) =
      analyzedArticlesOf xs ++ analyzedArticlesOf ys := by
  induction xs with
  | nil => rfl
  | cons e rest ih => cases e <;> simp [analyzedArticlesOf, ih]

theorem currentsOf_append (xs ys : List ScanEvent) :
    currentsOf (xs ++ ys) = currentsOf xs ++ currentsOf ys := by
  induction xs with
  | nil => rfl
  | cons e rest ih => cases e <;> simp [currentsOf, ih]

theorem analyzedArticlesOf_emitAnalyzed :
    ∀ (ab : List AnalyzedArticle) (c t : Nat),
      analyzedArticlesOf (emitAnalyzed t c ab) = ab := by
  intro ab
  induction ab with
  | nil => intro c t; rfl
  | cons a rest ih => intro c t; simp [emitAnalyzed, analyzedArticlesOf, ih]

theorem currentsOf_emitAnalyzed :
    ∀ (ab : List AnalyzedArticle) (c t : Nat),
      currentsOf (emitAnalyzed t c ab) = List.range' (c + 1) ab.length := by
  intro ab
  induction ab with
  | nil => intro c t; rfl
  | cons a rest ih =>
    intro c t
    rw [List.length_cons, List.range'_succ]
    simp [emitAnalyzed, currentsOf, ih]

theorem batchLoopF_toArticle (oracle : Nat → Option (List GeminiAnalysis))
    (total : Nat) :
    ∀ (fuel bi c : Nat) (l : List Article), l.length ≤ fuel →
      (analyzedArticlesOf (batchLoopF oracle total fuel bi c l)).map
        AnalyzedArticle.toArticle = l := by
  intro fuel
  induction fuel with
  | zero =>
    intro bi c l hl
    have : l = [] := List.length_eq_zero.mp (Nat.le_zero.mp hl)
    subst this
    rfl
  | succ f ih =>
    intro bi c l hl
    cases l with
    | nil => rfl
    | cons a rest =>
      simp only [batchLoopF]
      rw [analyzedArticlesOf_append, List.map_append,
        analyzedArticlesOf_emitAnalyzed, resolveBatch_toArticle,
        ih (bi + 1) (c + (resolveBatch (oracle bi) (a :: rest.take 4)).length)
          (rest.drop 4)
          (by simp only [List.length_cons] at hl; simp only [List.length_drop]; omega)]
      rw [List.cons_append, List.take_append_drop]

theorem batchLoopF_currents (oracle : Nat → Option (List GeminiAnalysis))
    (total : Nat) :
    ∀ (fuel bi c : Nat) (l : List Article), l.length ≤ fuel →
      currentsOf (batchLoopF oracle total fuel bi c l) =
        List.range' (c + 1) l.length := by
  intro fuel
  induction fuel with
  | zero =>
    intro bi c l hl
    have : l = [] := List.length_eq_zero.mp (Nat.le_zero.mp hl)
    subst this
    rfl
  | succ f ih =>
    intro bi c l hl
    cases l with
    | nil => rfl
    | cons a rest =>
      simp only [batchLoopF]
      rw [currentsOf_append, currentsOf_emitAnalyzed,
        ih (bi + 1) (c + (resolveBatch (oracle bi) (a :: rest.take 4)).length)
          (rest.drop 4)
          (by simp only [List.length_cons] at hl; simp only [List.length_drop]; omega),
        resolveBatch_length]
      have h1 : c + (a :: rest.take 4).length + 1 =
          (c + 1) + (a :: rest.take 4).length := by omega
      rw [h1, List.range'_append_1]
      congr 1
      simp only [List.length_drop, List.length_cons, List.length_take]
      omega

theorem pairwise_lt_range1 : ∀ (n s : Nat), (List.range' s n).Pairwise (· < ·) := by
  intro n
  induction n with
  | zero => intro s; simp
  | succ m ih =>
    intro s
    rw [List.range'_succ]
    refine List.Pairwise.cons ?_ (ih (s + 1))
    intro b hb
    rcases List.mem_range'.mp hb with ⟨i, hi, rfl⟩
    omega

theorem scanEvents_analyzed_toArticle (fetched : List (List Article))
    (oracle : Nat → Option (List GeminiAnalysis)) :
    (analyzedArticlesOf (scanEvents fetched oracle)).map
      AnalyzedArticle.toArticle = dedupSortTrunc fetched.flatten := by
  have hred : analyzedArticlesOf (scanEvents fetched oracle) =
      analyzedArticlesOf
        (batchLoopF oracle (dedupSortTrunc fetched.flatten).length
            (dedupSortTrunc fetched.flatten).length 0 0
            (dedupSortTrunc fetched.flatten) ++
          [.complete (dedupSortTrunc fetched.flatten).length]) := rfl
  rw [hred, analyzedArticlesOf_append, List.map_append,
    batchLoopF_toArticle oracle _ _ 0 0 _ le_rfl]
  simp [analyzedArticlesOf]

theorem scanEvents_announced (fetched : List (List Article))
    (oracle : Nat → Option (List GeminiAnalysis)) :
    announcedOf (scanEvents fetched oracle) = dedupSortTrunc fetched.flatten := rfl

theorem scanEvents_announcedTotal (fetched : List (List Article))
    (oracle : Nat → Option (List GeminiAnalysis)) :
    announcedTotalOf (scanEvents fetched oracle) =
      (dedupSortTrunc fetched.flatten).length := rfl

/-- Claim C1: in every run, the number of `analyzed` events equals the
number of items announced in the single `articles` event, and every
identity key (URL) announced there appears exactly once among the
`analyzed` events, whatever the classifier oracle does. -/
theorem scan_totality (fetched : List (List Article))
    (oracle : Nat → Option (List GeminiAnalysis)) :
    (analyzedArticlesOf (scanEvents fetched oracle)).length =
        (announcedOf (scanEvents fetched oracle)).length ∧
      ∀ k ∈ (announcedOf (scanEvents fetched oracle)).map Article.url,
        ((analyzedArticlesOf (scanEvents fetched oracle)).map
          (fun aa => aa.toArticle.url)).count k = 1 := by
  have hmap := scanEvents_analyzed_toArticle fetched oracle
  have hann := scanEvents_announced fetched oracle
  constructor
  · have := congrArg List.length hmap
    simp only [List.length_map] at this
    rw [this, hann]
  · intro k hk
    have hurl : (analyzedArticlesOf (scanEvents fetched oracle)).map
        (fun aa => aa.toArticle.url) =
        (dedupSortTrunc fetched.flatten).map Article.url := by
      rw [show (fun aa : AnalyzedArticle => aa.toArticle.url) =
        Article.url ∘ AnalyzedArticle.toArticle from rfl]
      rw [← List.map_map, hmap]
    rw [hurl]
    rw [hann] at hk
    exact List.count_eq_one_of_mem (dedupSortTrunc_urls_nodup _) hk

/-- Witness for C1 at a one-article run whose classifier fails. -/
theorem scan_totality_witness :
    "https://example.com/fed" ∈
        (announcedOf (scanEvents [[fedArticle]] (fun _ => none))).map Article.url ∧
      ((analyzedArticlesOf (scanEvents [[fedArticle]] (fun _ => none))).map
        (fun aa => aa.toArticle.url)).count "https://example.com/fed" = 1 :=
  ⟨by decide,
    (scan_totality [[fedArticle]] (fun _ => none)).2
      "https://example.com/fed" (by decide)⟩

/-- Claim C8: the `current` counters of the `analyzed` events are
strictly increasing over the whole stream and never exceed the total
announced in the `articles` event. -/
theorem progress_monotone (fetched : List (List Article))
    (oracle : Nat → Option (List GeminiAnalysis)) :
    (currentsOf (scanEvents fetched oracle)).Pairwise (· < ·) ∧
      ∀ c ∈ currentsOf (scanEvents fetched oracle),
        c ≤ announcedTotalOf (scanEvents fetched oracle) := by
  have hred : currentsOf (scanEvents fetched oracle) =
      currentsOf
        (batchLoopF oracle (dedupSortTrunc fetched.flatten).length
            (dedupSortTrunc fetched.flatten).length 0 0
            (dedupSortTrunc fetched.flatten) ++
          [.complete (dedupSortTrunc fetched.flatten).length]) := rfl
  have hc : currentsOf (scanEvents fetched oracle) =
      List.range' 1 (dedupSortTrunc fetched.flatten).length := by
    rw [hred, currentsOf_append, batchLoopF_currents oracle _ _ 0 0 _ le_rfl]
    simp [currentsOf]
  rw [hc, scanEvents_announcedTotal]
  constructor
  · exact pairwise_lt_range1 _ _
  · intro c hcmem
    rcases List.mem_range'.mp hcmem with ⟨i, hi, rfl⟩
    omega

/-- Witness for C8 at a one-article run whose classifier fails. -/
theorem progress_monotone_witness :
    1 ∈ currentsOf (scanEvents [[fedArticle]] (fun _ => none)) ∧
      1 ≤ announcedTotalOf (scanEvents [[fedArticle]] (fun _ => none)) :=
  ⟨by decide, (progress_monotone [[fedArticle]] (fun _ => none)).2 1 (by decide)⟩

/-- Counterexample for C2: with a two-item batch whose remote call
succeeds but returns an analysis for article 1 only, the emitted
`analyzed` events of that single batch mix a remote-sourced result
(item 1) with a fallback-classifier result (item 2). -/
theorem batch_mix_cex :
    analyzedArticlesOf (scanEvents [[remoteArticle, staleArticle]] mixedOracle) =
        [remoteResult remoteArticle remoteOnlyAnalysis,
          createFallbackAnalysis staleArticle "Analysis incomplete"] ∧
      isFallbackResultOf (createFallbackAnalysis staleArticle "Analysis incomplete")
          staleArticle ∧
      ¬ isFallbackResultOf (remoteResult remoteArticle remoteOnlyAnalysis)
          remoteArticle := by
  refine ⟨by decide, ⟨"Analysis incomplete", rfl⟩, ?_⟩
  rintro ⟨r, hr⟩
  have h1 : (remoteResult remoteArticle remoteOnlyAnalysis).analysis.keyInsight =
      "Buy banks" := by decide
  have h2 : (createFallbackAnalysis remoteArticle r).analysis.keyInsight = "" := rfl
  rw [hr] at h1
  exact absurd (h2.symm.trans h1) (by decide)

theorem analyzeFrom_getElem (g : List GeminiAnalysis) :
    ∀ (l : List Article) (j i : Nat),
      (analyzeFrom g j l)[i]? = (l[i]?).map (fun a => analyzeOne g (j + i) a) := by
  intro l
  induction l with
  | nil => intro j i; simp [analyzeFrom]
  | cons a rest ih =>
    intro j i
    cases i with
    | zero => simp [analyzeFrom]
    | succ i' =>
      simp only [analyzeFrom, List.getElem?_cons_succ, ih (j + 1) i']
      have : j + 1 + i' = j + (i' + 1) := by omega
      rw [this]

theorem analyzeOne_cases (g : List GeminiAnalysis) (i : Nat) (a : Article) :
    analyzeOne g i a = createFallbackAnalysis a "Analysis incomplete" ∨
      ∃ ga, analyzeOne g i a = remoteResult a ga := by
  unfold analyzeOne
  split
  · dsimp only
    split
    · right
      exact ⟨_, rfl⟩
    · left
      rfl
  · dsimp only
    split
    · split
      · right
        exact ⟨_, rfl⟩
      · left
        rfl
    · left
      rfl

/-- Claim C2 (amended): when the remote call of a batch fails after every
retry, every item of the batch carries a fallback-classifier result
(reason `AI analysis unavailable`) — no batch mixes retry-exhaustion
fallbacks with remote results; when the remote call succeeds, each item
individually carries either a remote-sourced result or a
fallback-classifier result (reason `Analysis incomplete`) when its
per-item analysis is missing or lacks a summary — so a mix can occur
within a successfully resolved batch, but never on the failure path. -/
theorem batch_resolution_paths (batch : List Article)
    (g : List GeminiAnalysis) :
    resolveBatch none batch =
        batch.map (fun a => createFallbackAnalysis a "AI analysis unavailable") ∧
      ∀ (i : Nat) (a : Article), batch[i]? = some a →
        ∃ out, (resolveBatch (some g) batch)[i]? = some out ∧
          (out = createFallbackAnalysis a "Analysis incomplete" ∨
            ∃ ga, out = remoteResult a ga) := by
  refine ⟨rfl, ?_⟩
  intro i a ha
  cases batch with
  | nil => simp at ha
  | cons b rest =>
    rw [resolveBatch_some_cons]
    unfold analyzeBatchPure
    rw [analyzeFrom_getElem g (b :: rest) 0 i, ha]
    exact ⟨analyzeOne g (0 + i) a, rfl, analyzeOne_cases g (0 + i) a⟩

/-- Witness for C2 (amended) at a singleton batch and an empty
response. -/
theorem batch_resolution_paths_witness :
    (([fedArticle] : List Article)[0]? = some fedArticle) ∧
      ∃ out, (resolveBatch (some []) [fedArticle])[0]? = some out ∧
        (out = createFallbackAnalysis fedArticle "Analysis incomplete" ∨
          ∃ ga, out = remoteResult fedArticle ga) :=
  ⟨rfl, (batch_resolution_paths [fedArticle] []).2 0 fedArticle rfl⟩
